import Mathlib

/-!
Shallow embedding of `scheduled_news_crawler.py` (a single-file polling news
crawler) and verification of its specification claims.

Modelling conventions:
* The filesystem state `FS` holds the identifier history file
  (`data/article_history.txt`, modelled as raw character content, `none` when
  the file does not exist) and the current day's CSV record file (modelled at
  row granularity, `none` when the file does not exist).
* The external world `Env` supplies the homepage fetch result (`none` when the
  HTTP request or parse raises) as the list of `href` attributes of the
  anchor elements of the page, and the per-article fetch result (`none` when
  the request, parse, or extraction raises) as the pieces of the parsed
  article page that the scraper inspects.
* Every cycle additionally records a ghost trace of write events (header row
  write, CSV data-row write, history append) so that ordering and counting
  properties of the writes can be stated.
-/

/-- Whitespace test matching Python's `str.strip` / `\s` character class
(ASCII whitespace, the C1 control separators, and the Unicode space
characters). -/
def isWsChar (c : Char) : Bool :=
  c == ' ' || c == '\t' || c == '\n' || c == '\r' || c == '\x0b' || c == '\x0c' ||
  c == '\x1c' || c == '\x1d' || c == '\x1e' || c == '\x1f' ||
  c == '\x85' || c == '\xa0' || c == ' ' ||
  c == ' ' || c == ' ' || c == ' ' || c == ' ' ||
  c == ' ' || c == ' ' || c == ' ' || c == ' ' ||
  c == ' ' || c == ' ' || c == ' ' ||
  c == ' ' || c == ' ' || c == ' ' || c == ' ' || c == '　'

/-- Python `str.strip()` on a character list: drop leading and trailing
whitespace. -/
def stripChars (cs : List Char) : List Char :=
  ((cs.dropWhile isWsChar).reverse.dropWhile isWsChar).reverse

/-- Python `str.strip()` on a string. -/
def stripStr (s : String) : String :=
  String.mk (stripChars s.data)

/-- Collapse every maximal run of whitespace characters to a single space,
the effect of `re.sub(r'\s+', ' ', text)`. -/
def squashWs : List Char → List Char
  | [] => []
  | [c] => [if isWsChar c then ' ' else c]
  | c :: d :: cs =>
    if isWsChar c && isWsChar d then squashWs (d :: cs)
    else (if isWsChar c then ' ' else c) :: squashWs (d :: cs)

/-- `clean_text` from the source: empty text stays empty, otherwise collapse
whitespace runs to single spaces and strip the ends. -/
def clean_text (s : String) : String :=
  if s = "" then "" else String.mk (stripChars (squashWs s.data))

/-- Split raw file content into lines the way Python file iteration does:
each `'\n'` terminates a line, and trailing content without a final newline
forms one last line.  Empty content yields no lines. -/
def splitLines : List Char → List (List Char)
  | [] => []
  | c :: cs =>
    if c = '\n' then [] :: splitLines cs
    else
      match splitLines cs with
      | [] => [[c]]
      | l :: ls => (c :: l) :: ls

/-- Parsed `figure img` element of an article page: the optional `src` and
`data-src` attributes. -/
structure ImgEl where
  src : Option String
  dataSrc : Option String
deriving DecidableEq

/-- The pieces of a fetched article page that the scraper inspects:
the text of the first `h1` (if any), the `datetime` attribute of the first
`time` element (`none` when there is no `time` element, `some none` when the
element lacks the attribute), the first `figure img` element, the
`get_text(strip=True)` results of the `.story-element-text` elements, and the
`get_text(strip=True)` results of the `.storyContent p` fallback elements. -/
structure ArticlePage where
  h1Text : Option String
  timeEl : Option (Option String)
  figureImg : Option ImgEl
  storyTexts : List String
  fallbackTexts : List String
deriving DecidableEq

/-- The external world of one cycle: the homepage fetch result (the `href`
attributes of the page's anchors, `none` on a network/HTTP error), the
per-URL article fetch result (`none` when fetching or parsing that article
raises), and the current wall-clock timestamp string. -/
structure Env where
  homepage : Option (List String)
  article : String → Option ArticlePage
  now : String

/-- Filesystem state: the identifier history file (raw character content,
`none` when the file does not exist) and the current day's CSV file (list of
rows, `none` when the file does not exist). -/
structure FS where
  history : Option (List Char)
  csv : Option (List (List String))
deriving DecidableEq

/-- Ghost write events recorded during a cycle: a CSV header-row write, a CSV
data-row write, and an append of an identifier to the history file. -/
inductive Ev where
  | headerWrite : Ev
  | sinkWrite : List String → Ev
  | recordSeen : String → Ev
deriving DecidableEq

/-- State threaded through one scrape cycle: the filesystem, the
`articles_scraped` counter, and the ghost trace of write events. -/
structure CycleSt where
  fs : FS
  count : Nat
  trace : List Ev
deriving DecidableEq

/-- Recognizer for history-append events. -/
def isRecordEv : Ev → Bool
  | .recordSeen _ => true
  | _ => false

/-- Recognizer for CSV data-row events. -/
def isSinkEv : Ev → Bool
  | .sinkWrite _ => true
  | _ => false

/-- Recognizer for CSV header events. -/
def isHeaderEv : Ev → Bool
  | .headerWrite => true
  | _ => false

/-- `get_current_articles` from the source: if the history file exists, read
it line by line, strip each line and collect the results into a set (modelled
as a duplicate-free list); otherwise return the empty set. -/
def get_current_articles (fs : FS) : List String :=
  match fs.history with
  | none => []
  | some content => ((splitLines content).map (fun l => String.mk (stripChars l))).dedup

/-- `save_article_url` from the source: open the history file in append mode
(creating it when absent) and write the url followed by a newline. -/
def save_article_url (fs : FS) (url : String) : FS :=
  { fs with history := some (fs.history.getD [] ++ (url.data ++ ['\n'])) }

/-- Python's substring test `pat in s`. -/
def containsSub (s pat : String) : Bool :=
  decide (pat.data <:+: s.data)

/-- Python's `s.startswith(pat)`. -/
def startsWith (s pat : String) : Bool :=
  pat.data.isPrefixOf s.data

/-- The eight homepage category names of the source. -/
def categories : List String :=
  ["bangladesh", "world", "economy", "sports", "entertainment", "opinion",
   "lifestyle", "technology"]

/-- The site base URL of the source. -/
def base_url : String := "https://www.prothomalo.com"

/-- Link discovery over the homepage anchors, as in the source: for each
category, select the hrefs containing `/{category}/`, keep those containing
neither `/video/` nor `/gallery/`, and turn each kept href into a full URL by
prepending the base URL unless it already starts with `http`. -/
def discoverLinks (hrefs : List String) : List String :=
  (categories.map (fun cat =>
    ((hrefs.filter (fun h => containsSub h ("/" ++ cat ++ "/"))).filter
        (fun h => !containsSub h "/video/" && !containsSub h "/gallery/")).map
      (fun h => if startsWith h "http" then h else base_url ++ h))).flatten

/-- The delta filter of the source: deduplicate the discovered links
(`set(article_links)`) and drop those already in the seen set. -/
def selectNew (discovered : List String) (existing : List String) : List String :=
  discovered.dedup.filter (fun u => !existing.contains u)

/-- The CSV header row written to a freshly created daily file. -/
def headerRow : List String :=
  ["title", "full_content", "image_url", "article_url", "published_at", "scraped_at"]

/-- Title extraction: `clean_text` of the first `h1` text, or the placeholder
when the page has no `h1`. -/
def titleOf (p : ArticlePage) : String :=
  match p.h1Text with
  | some t => clean_text t
  | none => "No title found"

/-- Publication-date field: the `datetime` attribute of the first `time`
element; an absent element, like an absent attribute (which the `csv` module
renders as an empty cell), yields the empty string. -/
def publishedOf (p : ArticlePage) : String :=
  match p.timeEl with
  | none => ""
  | some attr => attr.getD ""

/-- Image extraction: the `src` attribute of the first `figure img`, falling
back to `data-src` (default empty) when `src` is absent or empty, and the
empty string when there is no such element. -/
def imageOf (p : ArticlePage) : String :=
  match p.figureImg with
  | none => ""
  | some im =>
    match im.src with
    | some v => if v = "" then im.dataSrc.getD "" else v
    | none => im.dataSrc.getD ""

/-- The sentinel body recorded when neither content selector finds
anything. -/
def sentinelBody : String :=
  "Content extraction failed - no story-element-text found"

/-- Primary body extraction: concatenate the non-empty
`.story-element-text` texts, each followed by a blank line, then strip. -/
def primaryContent (p : ArticlePage) : String :=
  stripStr (String.join (p.storyTexts.map (fun t => if t = "" then "" else t ++ "\n\n")))

/-- Body extraction as in the source: the primary content if it is
non-empty; otherwise the stripped concatenation of the `.storyContent p`
fallback texts when that selector finds elements; otherwise the sentinel
failure string. -/
def bodyOf (p : ArticlePage) : String :=
  let c := primaryContent p
  if c = "" then
    match p.fallbackTexts with
    | [] => sentinelBody
    | q :: qs => stripStr (String.join ((q :: qs).map (fun t => t ++ "\n\n")))
  else c

/-- The CSV row written for one successfully processed article. -/
def mkRow (env : Env) (url : String) (p : ArticlePage) : List String :=
  [titleOf p, bodyOf p, imageOf p, url, publishedOf p, env.now]

/-- Opening of the daily CSV file at cycle start: append mode creates the
file when absent, and the header row is written exactly when the existence
check before opening failed.  Returns the updated filesystem and the header
events emitted. -/
def openDaily (fs : FS) : FS × List Ev :=
  match fs.csv with
  | none => ({ fs with csv := some [headerRow] }, [Ev.headerWrite])
  | some _ => (fs, [])

/-- Processing of one candidate article inside the per-item `try`: a failed
fetch/parse (`none`) is caught and skipped, leaving the state untouched;
otherwise the extracted row is written to the CSV, the identifier is appended
to the history file, and the counter is incremented. -/
def processItem (env : Env) (st : CycleSt) (url : String) : CycleSt :=
  match env.article url with
  | none => st
  | some page =>
    let row := mkRow env url page
    let fs1 := { st.fs with csv := some (st.fs.csv.getD [] ++ [row]) }
    let fs2 := save_article_url fs1 url
    { fs := fs2, count := st.count + 1,
      trace := st.trace ++ [Ev.sinkWrite row, Ev.recordSeen url] }

/-- The `for` loop over the filtered new-article list. -/
def processAll (env : Env) (st : CycleSt) : List String → CycleSt
  | [] => st
  | u :: us => processAll env (processItem env st u) us

/-- One scrape cycle (`scrape_prothom_alo`): load the seen set, open the
daily CSV (writing the header when the file is new), fetch the homepage —
aborting with count 0 on failure — then discover links, filter against the
seen set, and process each new article. -/
def scrape_prothom_alo (env : Env) (fs0 : FS) : CycleSt :=
  let existing := get_current_articles fs0
  let opened := openDaily fs0
  let st1 : CycleSt := ⟨opened.1, 0, opened.2⟩
  match env.homepage with
  | none => st1
  | some hrefs => processAll env st1 (selectNew (discoverLinks hrefs) existing)

/-- The outer scheduler loop of `main`, run for a finite list of cycles
(the program loops until interrupted): each cycle's return value is added to
the running total. -/
def runCycles (envs : List Env) (fs : FS) (total : Nat) : FS × Nat :=
  match envs with
  | [] => (fs, total)
  | e :: es =>
    let st := scrape_prothom_alo e fs
    runCycles es st.fs (total + st.count)

/-- The per-cycle return values of a run. -/
def cycleCounts (envs : List Env) (fs : FS) : List Nat :=
  match envs with
  | [] => []
  | e :: es => (scrape_prothom_alo e fs).count :: cycleCounts es (scrape_prothom_alo e fs).fs

/-- The items of the candidate list that process successfully. -/
def successes (env : Env) (urls : List String) : List String :=
  urls.filter (fun u => (env.article u).isSome)

/-- The ghost events emitted for one candidate item. -/
def itemBlock (env : Env) (u : String) : List Ev :=
  match env.article u with
  | none => []
  | some page => [Ev.sinkWrite (mkRow env u page), Ev.recordSeen u]

/-- The history-file content after appending a list of identifiers. -/
def historyAfter (h : Option (List Char)) : List String → Option (List Char)
  | [] => h
  | u :: us => historyAfter (some (h.getD [] ++ (u.data ++ ['\n']))) us

/-- The CSV row produced for a url whose article fetch succeeds. -/
def rowFor (env : Env) (u : String) : List String :=
  match env.article u with
  | none => []
  | some page => mkRow env u page

/-- Well-formedness of a history file: absent, empty, or ending in a
newline — the shape every file written by the program has. -/
def wfHistory (h : Option (List Char)) : Bool :=
  (h.getD []).isEmpty || (h.getD []).getLast? == some '\n'

/-- An identifier that survives the history round trip: no surrounding
whitespace and no line-breaking characters. -/
def cleanId (u : String) : Bool :=
  stripChars u.data == u.data && !u.data.contains '\n' && !u.data.contains '\r'

/-- Repeated `record` operations on the identifier store. -/
def recordAll (fs : FS) (ids : List String) : FS :=
  ids.foldl save_article_url fs

/-- Predicate of well-ordered write traces: every history-append event
immediately follows the CSV write of a row whose `article_url` field (index
3) is the recorded identifier. -/
inductive SinkThenRecord : List Ev → Prop
  | nil : SinkThenRecord []
  | head (e : Ev) (tr : List Ev) (h : ∀ u, e ≠ Ev.recordSeen u)
      (ht : SinkThenRecord tr) : SinkThenRecord (e :: tr)
  | pair (row : List String) (u : String) (tr : List Ev) (h : row[3]? = some u)
      (ht : SinkThenRecord tr) : SinkThenRecord (Ev.sinkWrite row :: Ev.recordSeen u :: tr)

/-- Filesystem with neither a history file nor a daily CSV file. -/
def fsEmpty : FS := ⟨none, none⟩

/-- Cycle state at the start of item processing over `fsEmpty`. -/
def stZero : CycleSt := ⟨fsEmpty, 0, []⟩

/-- An article page with one paragraph of body text and nothing else. -/
def pageBody : ArticlePage := ⟨none, none, none, ["body"], []⟩

/-- An article page with no extractable fields at all. -/
def pageBare : ArticlePage := ⟨none, none, none, [], []⟩

/-- A cycle in which the homepage fetch fails and every article fetch
fails. -/
def envDown : Env := ⟨none, fun _ => none, "t"⟩

/-- A cycle whose homepage lists one article with a trailing space in its
href and whose article fetches all succeed. -/
def envC5 : Env := ⟨some ["/bangladesh/a "], fun _ => some pageBody, "t"⟩

/-- A cycle whose homepage lists one clean article href and whose article
fetches all succeed. -/
def envWorld : Env := ⟨some ["/world/x"], fun _ => some pageBody, "t"⟩

/-- A cycle with no homepage and article fetches that fail only for the
url `"a"`. -/
def envMixed : Env := ⟨none, fun u => if u = "a" then none else some pageBody, "t"⟩

/-- A cycle whose article fetches all return the empty page. -/
def envBare : Env := ⟨none, fun _ => some pageBare, "t"⟩

example : clean_text "  a \n b  " = "a b" := by decide

example : splitLines "ab\ncd\n".data = ["ab".data, "cd".data] := by decide

example : splitLines "ab\ncd".data = ["ab".data, "cd".data] := by decide

example : splitLines "".data = [] := by decide

example :
    discoverLinks ["/bangladesh/x", "http://e.com/world/y", "/video/bangladesh/z", "/other/w"] =
      ["https://www.prothomalo.com/bangladesh/x", "http://e.com/world/y"] := by decide

example :
    get_current_articles (save_article_url ⟨none, none⟩ "a ") = ["a"] := by decide

theorem splitLines_ne_nil : ∀ cs : List Char, cs ≠ [] → splitLines cs ≠ [] := by
  intro cs h
  match cs with
  | c :: cs' =>
    simp only [splitLines]
    split
    · simp
    · split <;> simp

theorem splitLines_cons_nl (cs : List Char) : splitLines ('\n' :: cs) = [] :: splitLines cs := by
  simp [splitLines]

theorem splitLines_cons (x : Char) (cs : List Char) (hx : x ≠ '\n') :
    splitLines (x :: cs) =
      match splitLines cs with
      | [] => [[x]]
      | l :: ls => (x :: l) :: ls := by
  simp only [splitLines, if_neg hx]

theorem splitLines_append (c ys : List Char) (h : c = [] ∨ c.getLast? = some '\n') :
    splitLines (c ++ ys) = splitLines c ++ splitLines ys := by
  induction c with
  | nil => simp [splitLines]
  | cons x c' ih =>
    rcases h with h | h
    · exact absurd h (by simp)
    · by_cases hx : x = '\n'
      · subst hx
        cases c' with
        | nil => simp [splitLines_cons_nl, splitLines]
        | cons d ds =>
          have h' : (d :: ds).getLast? = some '\n' := by
            rwa [List.getLast?_cons_cons] at h
          have heq := ih (Or.inr h')
          simp only [List.cons_append] at heq ⊢
          rw [splitLines_cons_nl, splitLines_cons_nl, heq]
          rfl
      · cases c' with
        | nil =>
          rw [List.getLast?_singleton] at h
          exact absurd (Option.some.inj h) hx
        | cons d ds =>
          have h' : (d :: ds).getLast? = some '\n' := by
            rwa [List.getLast?_cons_cons] at h
          have hne : splitLines (d :: ds) ≠ [] := splitLines_ne_nil _ (by simp)
          have heq := ih (Or.inr h')
          rw [List.cons_append, splitLines_cons x _ hx, splitLines_cons x _ hx, heq]
          cases hsp : splitLines (d :: ds) with
          | nil => exact absurd hsp hne
          | cons l ls => simp

theorem splitLines_line (u : List Char) (h : '\n' ∉ u) :
    splitLines (u ++ ['\n']) = [u] := by
  induction u with
  | nil => simp [splitLines]
  | cons d u' ih =>
    have hd : d ≠ '\n' := by
      intro he
      exact h (he ▸ List.mem_cons_self d u')
    have h' : '\n' ∉ u' := fun hm => h (List.mem_cons_of_mem _ hm)
    rw [List.cons_append, splitLines_cons d _ hd, ih h']

theorem wfHistory_iff (h : Option (List Char)) :
    wfHistory h = true ↔ (h.getD [] = [] ∨ (h.getD []).getLast? = some '\n') := by
  simp [wfHistory, List.isEmpty_iff]

theorem historyAfter_wf (us : List String) :
    ∀ h, wfHistory h = true → wfHistory (historyAfter h us) = true := by
  induction us with
  | nil => intro h hw; exact hw
  | cons u us ih =>
    intro h _
    apply ih
    rw [wfHistory_iff]
    right
    simp only [Option.getD_some]
    rw [← List.append_assoc]
    exact List.getLast?_concat _

theorem historyAfter_lines (us : List String) :
    ∀ h, wfHistory h = true → (∀ u ∈ us, '\n' ∉ u.data) →
    splitLines ((historyAfter h us).getD []) =
      splitLines (h.getD []) ++ us.map String.data := by
  induction us with
  | nil => intro h _ _; simp [historyAfter]
  | cons u us ih =>
    intro h hw hnl
    have hu : '\n' ∉ u.data := hnl u (List.mem_cons_self u us)
    have h' : wfHistory (some (h.getD [] ++ (u.data ++ ['\n']))) = true := by
      rw [wfHistory_iff]
      right
      simp only [Option.getD_some]
      rw [← List.append_assoc]
      exact List.getLast?_concat _
    simp only [historyAfter]
    rw [ih _ h' (fun v hv => hnl v (List.mem_cons_of_mem _ hv))]
    have hsa := splitLines_append (h.getD []) (u.data ++ ['\n']) ((wfHistory_iff h).mp hw)
    have hsl := splitLines_line u.data hu
    simp only [Option.getD_some, hsa, hsl, List.map_cons, List.append_assoc,
      List.singleton_append]

theorem get_current_articles_eq (fs : FS) :
    get_current_articles fs =
      ((splitLines (fs.history.getD [])).map (fun l => String.mk (stripChars l))).dedup := by
  cases h : fs.history <;> simp [get_current_articles, h, splitLines]

theorem processItem_none (env : Env) (st : CycleSt) (url : String)
    (h : env.article url = none) : processItem env st url = st := by
  simp [processItem, h]

theorem processAll_count (env : Env) (us : List String) :
    ∀ st, (processAll env st us).count = st.count + (successes env us).length := by
  induction us with
  | nil => intro st; simp [processAll, successes]
  | cons u us ih =>
    intro st
    simp only [processAll]
    rw [ih]
    cases ha : env.article u with
    | none => simp [processItem, ha, successes, List.filter_cons]
    | some p =>
      simp [processItem, ha, successes, List.filter_cons]
      omega

theorem processAll_trace (env : Env) (us : List String) :
    ∀ st, (processAll env st us).trace = st.trace ++ (us.map (itemBlock env)).flatten := by
  induction us with
  | nil => intro st; simp [processAll]
  | cons u us ih =>
    intro st
    simp only [processAll]
    rw [ih]
    cases ha : env.article u with
    | none => simp [processItem, ha, itemBlock]
    | some p => simp [processItem, ha, itemBlock]

theorem processAll_history (env : Env) (us : List String) :
    ∀ st, (processAll env st us).fs.history = historyAfter st.fs.history (successes env us) := by
  induction us with
  | nil => intro st; simp [processAll, successes, historyAfter]
  | cons u us ih =>
    intro st
    simp only [processAll]
    rw [ih]
    cases ha : env.article u with
    | none => simp [processItem, ha, successes, List.filter_cons]
    | some p =>
      simp [processItem, ha, successes, List.filter_cons, save_article_url, historyAfter]

theorem processAll_csv (env : Env) (us : List String) :
    ∀ st rows, st.fs.csv = some rows →
    (processAll env st us).fs.csv = some (rows ++ (successes env us).map (rowFor env)) := by
  induction us with
  | nil => intro st rows h; simp [processAll, successes, h]
  | cons u us ih =>
    intro st rows h
    simp only [processAll]
    cases ha : env.article u with
    | none =>
      rw [processItem_none env st u ha, ih st rows h]
      simp [successes, List.filter_cons, ha]
    | some p =>
      have hcsv : (processItem env st u).fs.csv = some (rows ++ [mkRow env u p]) := by
        simp [processItem, ha, save_article_url, h]
      rw [ih _ _ hcsv]
      simp [successes, List.filter_cons, ha, rowFor, List.append_assoc]

theorem processAll_record_count (env : Env) (us : List String) :
    ∀ st, ((processAll env st us).trace.filter isRecordEv).length =
      (st.trace.filter isRecordEv).length + (successes env us).length := by
  induction us with
  | nil => intro st; simp [processAll, successes]
  | cons u us ih =>
    intro st
    simp only [processAll]
    rw [ih]
    cases ha : env.article u with
    | none => simp [processItem, ha, successes, List.filter_cons]
    | some p =>
      simp [processItem, ha, successes, List.filter_cons, List.filter_append,
        isRecordEv, isSinkEv]
      omega

theorem processAll_sink_count (env : Env) (us : List String) :
    ∀ st, ((processAll env st us).trace.filter isSinkEv).length =
      (st.trace.filter isSinkEv).length + (successes env us).length := by
  induction us with
  | nil => intro st; simp [processAll, successes]
  | cons u us ih =>
    intro st
    simp only [processAll]
    rw [ih]
    cases ha : env.article u with
    | none => simp [processItem, ha, successes, List.filter_cons]
    | some p =>
      simp [processItem, ha, successes, List.filter_cons, List.filter_append,
        isRecordEv, isSinkEv]
      omega

theorem processAll_header_filter (env : Env) (us : List String) :
    ∀ st, (processAll env st us).trace.filter isHeaderEv = st.trace.filter isHeaderEv := by
  induction us with
  | nil => intro st; simp [processAll]
  | cons u us ih =>
    intro st
    simp only [processAll]
    rw [ih]
    cases ha : env.article u with
    | none => simp [processItem, ha]
    | some p => simp [processItem, ha, List.filter_append, isHeaderEv]

theorem sinkThenRecord_append {t1 t2 : List Ev} (h1 : SinkThenRecord t1)
    (h2 : SinkThenRecord t2) : SinkThenRecord (t1 ++ t2) := by
  induction h1 with
  | nil => exact h2
  | head e tr hne _ ih => exact SinkThenRecord.head e _ hne ih
  | pair row u tr hr _ ih => exact SinkThenRecord.pair row u _ hr ih

theorem sinkThenRecord_processAll (env : Env) (us : List String) :
    ∀ st, SinkThenRecord st.trace → SinkThenRecord (processAll env st us).trace := by
  induction us with
  | nil => intro st h; exact h
  | cons u us ih =>
    intro st h
    apply ih
    cases ha : env.article u with
    | none =>
      rw [processItem_none env st u ha]
      exact h
    | some p =>
      have hb : SinkThenRecord [Ev.sinkWrite (mkRow env u p), Ev.recordSeen u] :=
        SinkThenRecord.pair _ _ _ rfl SinkThenRecord.nil
      have htr : (processItem env st u).trace =
          st.trace ++ [Ev.sinkWrite (mkRow env u p), Ev.recordSeen u] := by
        simp [processItem, ha]
      rw [htr]
      exact sinkThenRecord_append h hb

theorem scrape_eq_some (env : Env) (fs0 : FS) (hrefs : List String)
    (h : env.homepage = some hrefs) :
    scrape_prothom_alo env fs0 =
      processAll env ⟨(openDaily fs0).1, 0, (openDaily fs0).2⟩
        (selectNew (discoverLinks hrefs) (get_current_articles fs0)) := by
  simp [scrape_prothom_alo, h]

theorem scrape_eq_none (env : Env) (fs0 : FS) (h : env.homepage = none) :
    scrape_prothom_alo env fs0 = ⟨(openDaily fs0).1, 0, (openDaily fs0).2⟩ := by
  simp [scrape_prothom_alo, h]

theorem openDaily_history (fs : FS) : (openDaily fs).1.history = fs.history := by
  cases h : fs.csv <;> simp [openDaily, h]

theorem openDaily_csv (fs : FS) : (openDaily fs).1.csv = some (fs.csv.getD [headerRow]) := by
  cases h : fs.csv <;> simp [openDaily, h]

theorem openDaily_trace (fs : FS) : (openDaily fs).2 = cond fs.csv.isNone [Ev.headerWrite] [] := by
  cases h : fs.csv <;> simp [openDaily, h]

theorem cleanId_strip {u : String} (h : cleanId u = true) : stripChars u.data = u.data := by
  simp [cleanId] at h
  exact h.1.1

theorem cleanId_no_nl {u : String} (h : cleanId u = true) : '\n' ∉ u.data := by
  simp [cleanId] at h
  exact h.1.2

theorem mem_load_historyAfter (ids : List String) (h : Option (List Char)) (fs1 fs2 : FS)
    (hh1 : fs1.history = h) (hh2 : fs2.history = historyAfter h ids)
    (hw : wfHistory h = true) (hcl : ∀ u ∈ ids, cleanId u = true) (x : String) :
    x ∈ get_current_articles fs2 ↔ x ∈ get_current_articles fs1 ∨ x ∈ ids := by
  rw [get_current_articles_eq fs2, get_current_articles_eq fs1, hh1, hh2]
  rw [historyAfter_lines ids h hw (fun u hu => cleanId_no_nl (hcl u hu))]
  rw [List.map_append, List.mem_dedup, List.mem_dedup, List.mem_append]
  have hm : (ids.map String.data).map (fun l => String.mk (stripChars l)) = ids := by
    rw [List.map_map]
    have hcongr : ids.map ((fun l => String.mk (stripChars l)) ∘ String.data) = ids.map id := by
      apply List.map_congr_left
      intro u hu
      simp only [Function.comp_apply, id_eq, cleanId_strip (hcl u hu)]
    rw [hcongr, List.map_id]
  rw [hm]

theorem recordAll_history (ids : List String) : ∀ fs : FS,
    (recordAll fs ids).history = historyAfter fs.history ids := by
  induction ids with
  | nil => intro fs; rfl
  | cons u us ih =>
    intro fs
    show (recordAll (save_article_url fs u) us).history = _
    rw [ih (save_article_url fs u)]
    rfl

theorem sinkThenRecord_openDaily (fs : FS) : SinkThenRecord (openDaily fs).2 := by
  rw [openDaily_trace]
  cases fs.csv.isNone
  · exact SinkThenRecord.nil
  · exact SinkThenRecord.head _ _ (fun u hu => Ev.noConfusion hu) SinkThenRecord.nil

theorem openDaily_no_record (fs : FS) : (openDaily fs).2.filter isRecordEv = [] := by
  rw [openDaily_trace]
  cases fs.csv.isNone <;> simp [isRecordEv]

theorem openDaily_no_sink (fs : FS) : (openDaily fs).2.filter isSinkEv = [] := by
  rw [openDaily_trace]
  cases fs.csv.isNone <;> simp [isSinkEv]


/-- C1: in every cycle the set of identifiers selected for processing is
the set-difference of the (self-deduplicated) discovered identifiers and
the seen set loaded at cycle start: an identifier is in the processing
list iff it was discovered on the homepage and is not in the seen set, and
the list is duplicate-free, so each identifier is processed at most once
even when the homepage listed it several times. -/
theorem c1_delta_filter (hrefs existing : List String) :
    (∀ u, u ∈ selectNew (discoverLinks hrefs) existing ↔
      u ∈ discoverLinks hrefs ∧ u ∉ existing) ∧
    (selectNew (discoverLinks hrefs) existing).Nodup := by
  constructor
  · intro u
    simp [selectNew, List.mem_filter, List.mem_dedup]
  · exact (List.nodup_dedup _).filter _

/-- C2 as stated is false: when the homepage fetch fails on a day whose
daily CSV file does not yet exist, the cycle still creates that file and
writes the header row into it, because the file is opened (and the header
written) before the fetch is attempted.  At the concrete state with no
prior files, the CSV component of the state changes. -/
theorem c2_counterexample :
    (scrape_prothom_alo envDown fsEmpty).fs.csv ≠ fsEmpty.csv := by
  decide

/-- C2 (amended): when the homepage fetch fails the cycle returns 0, the
identifier history file is unchanged, no data row is written, and no
exception escapes; however the daily CSV file is opened in append mode
before the fetch, so when it did not exist it is created holding exactly
the header row (an existing file is unchanged). -/
theorem c2_amended_fetch_failure (env : Env) (fs : FS) (h : env.homepage = none) :
    (scrape_prothom_alo env fs).count = 0 ∧
    (scrape_prothom_alo env fs).fs.history = fs.history ∧
    (scrape_prothom_alo env fs).fs.csv = some (fs.csv.getD [headerRow]) := by
  rw [scrape_eq_none env fs h]
  exact ⟨rfl, openDaily_history fs, openDaily_csv fs⟩

theorem c2_amended_fetch_failure_witness :
    envDown.homepage = none ∧
    ((scrape_prothom_alo envDown fsEmpty).count = 0 ∧
     (scrape_prothom_alo envDown fsEmpty).fs.history = fsEmpty.history ∧
     (scrape_prothom_alo envDown fsEmpty).fs.csv = some (fsEmpty.csv.getD [headerRow])) :=
  ⟨rfl, c2_amended_fetch_failure envDown fsEmpty rfl⟩

/-- C3: a per-item failure (the article fetch/parse for that url raises,
modelled as `env.article u = none`) is caught and the item is skipped: the
whole cycle behaves exactly as if the failing item were absent from the
list, so nothing is appended to the history file for it, no CSV row is
written for it, it is not counted, and every remaining item is still
processed from the same state. -/
theorem c3_item_failure_skipped (env : Env) (st : CycleSt) (pre post : List String)
    (u : String) (h : env.article u = none) :
    processAll env st (pre ++ u :: post) = processAll env st (pre ++ post) := by
  induction pre generalizing st with
  | nil =>
    simp only [List.nil_append, processAll]
    rw [processItem_none env st u h]
  | cons p pre ih =>
    simp only [List.cons_append, processAll]
    exact ih _

theorem c3_item_failure_skipped_witness :
    envMixed.article "a" = none ∧
    processAll envMixed stZero (["b"] ++ "a" :: ["c"]) =
      processAll envMixed stZero (["b"] ++ ["c"]) :=
  ⟨by decide, c3_item_failure_skipped envMixed stZero ["b"] ["c"] "a" (by decide)⟩

/-- C4: in the write trace of every cycle, each history append
(`recordSeen`) occurs immediately after the CSV write (`sinkWrite`) of a
row whose `article_url` field is that identifier — the sink write happens
first, and no identifier is recorded as seen without its sink write having
happened (in program order). -/
theorem c4_sink_before_record (env : Env) (fs : FS) :
    SinkThenRecord ((scrape_prothom_alo env fs).trace) := by
  cases hh : env.homepage with
  | none =>
    rw [scrape_eq_none env fs hh]
    exact sinkThenRecord_openDaily fs
  | some hrefs =>
    rw [scrape_eq_some env fs hrefs hh]
    exact sinkThenRecord_processAll env _ _ (sinkThenRecord_openDaily fs)

/-- C5 as stated is false: an href with a trailing space survives discovery
unchanged, but the history file records it verbatim while loading strips
each line, so the identifier never matches the seen set and the article is
re-processed.  Concretely, with homepage href `"/bangladesh/a "` every
discovered article of cycle one is processed successfully (the cycle
returns 1), yet an immediate second cycle with the same homepage content
returns 1 again instead of 0. -/
theorem c5_counterexample :
    (scrape_prothom_alo envC5 fsEmpty).count = 1 ∧
    (scrape_prothom_alo envC5 (scrape_prothom_alo envC5 fsEmpty).fs).count ≠ 0 := by
  decide

/-- C5 (amended): after a cycle in which every discovered article was
processed successfully, an immediate second cycle with the same homepage
content finds zero new articles and returns 0, provided every discovered
identifier round-trips through the history file (no surrounding whitespace
and no newline or carriage-return characters) and the pre-existing history
file, when present, ends with a newline. -/
theorem c5_amended_idempotent (env env2 : Env) (fs : FS) (hrefs : List String)
    (h1 : env.homepage = some hrefs) (h2 : env2.homepage = some hrefs)
    (hwf : wfHistory fs.history = true)
    (hcl : ∀ u ∈ discoverLinks hrefs, cleanId u = true)
    (hok : ∀ u ∈ selectNew (discoverLinks hrefs) (get_current_articles fs),
      (env.article u).isSome = true) :
    selectNew (discoverLinks hrefs) (get_current_articles (scrape_prothom_alo env fs).fs) = [] ∧
    (scrape_prothom_alo env2 (scrape_prothom_alo env fs).fs).count = 0 := by
  have hsucc : successes env (selectNew (discoverLinks hrefs) (get_current_articles fs)) =
      selectNew (discoverLinks hrefs) (get_current_articles fs) :=
    List.filter_eq_self.mpr hok
  have hh1 : (scrape_prothom_alo env fs).fs.history =
      historyAfter fs.history (selectNew (discoverLinks hrefs) (get_current_articles fs)) := by
    rw [scrape_eq_some env fs hrefs h1, processAll_history, hsucc]
    show historyAfter (openDaily fs).1.history _ = _
    rw [openDaily_history]
  have hclnews : ∀ u ∈ selectNew (discoverLinks hrefs) (get_current_articles fs),
      cleanId u = true := by
    intro u hu
    exact hcl u (List.mem_dedup.mp (List.mem_filter.mp hu).1)
  have hmem := fun x => mem_load_historyAfter
    (selectNew (discoverLinks hrefs) (get_current_articles fs)) fs.history fs
    (scrape_prothom_alo env fs).fs rfl hh1 hwf hclnews x
  have hempty : selectNew (discoverLinks hrefs)
      (get_current_articles (scrape_prothom_alo env fs).fs) = [] := by
    apply List.filter_eq_nil_iff.mpr
    intro u hu
    have hmemin : u ∈ get_current_articles (scrape_prothom_alo env fs).fs := by
      by_cases hex : u ∈ get_current_articles fs
      · exact (hmem u).mpr (Or.inl hex)
      · refine (hmem u).mpr (Or.inr ?_)
        refine List.mem_filter.mpr ⟨hu, ?_⟩
        simp [hex]
    simp [hmemin]
  refine ⟨hempty, ?_⟩
  rw [scrape_eq_some env2 (scrape_prothom_alo env fs).fs hrefs h2, hempty]
  rfl

theorem c5_amended_idempotent_witness :
    (envWorld.homepage = some ["/world/x"] ∧ wfHistory fsEmpty.history = true ∧
     (∀ u ∈ discoverLinks ["/world/x"], cleanId u = true) ∧
     (∀ u ∈ selectNew (discoverLinks ["/world/x"]) (get_current_articles fsEmpty),
       (envWorld.article u).isSome = true)) ∧
    (selectNew (discoverLinks ["/world/x"])
        (get_current_articles (scrape_prothom_alo envWorld fsEmpty).fs) = [] ∧
     (scrape_prothom_alo envWorld (scrape_prothom_alo envWorld fsEmpty).fs).count = 0) :=
  ⟨⟨rfl, by decide, by decide, by decide⟩,
   c5_amended_idempotent envWorld envWorld fsEmpty ["/world/x"] rfl rfl (by decide)
     (by decide) (by decide)⟩

/-- C6: when the article fetch succeeds but the primary selector finds no
body elements, the fallback selector finds none either, and the page has
no title element, the record is still written — with the placeholder title
and the sentinel failure string as body — the identifier is still appended
to the history file, and the item counts as processed: partial extraction
is never an error. -/
theorem c6_degraded_record (env : Env) (st : CycleSt) (url : String) (page : ArticlePage)
    (ha : env.article url = some page) (hstory : page.storyTexts = [])
    (hfb : page.fallbackTexts = []) (hh1 : page.h1Text = none) :
    processItem env st url =
      ⟨⟨some (st.fs.history.getD [] ++ (url.data ++ ['\n'])),
        some (st.fs.csv.getD [] ++
          [["No title found", sentinelBody, imageOf page, url, publishedOf page, env.now]])⟩,
       st.count + 1,
       st.trace ++ [Ev.sinkWrite ["No title found", sentinelBody, imageOf page, url,
         publishedOf page, env.now], Ev.recordSeen url]⟩ := by
  have hrow : mkRow env url page =
      ["No title found", sentinelBody, imageOf page, url, publishedOf page, env.now] := by
    simp [mkRow, titleOf, hh1, bodyOf, primaryContent, hstory, hfb, stripStr, stripChars]
  simp [processItem, ha, hrow, save_article_url]

theorem c6_degraded_record_witness :
    (envBare.article "u" = some pageBare ∧ pageBare.storyTexts = [] ∧
     pageBare.fallbackTexts = [] ∧ pageBare.h1Text = none) ∧
    processItem envBare stZero "u" =
      ⟨⟨some (stZero.fs.history.getD [] ++ ("u".data ++ ['\n'])),
        some (stZero.fs.csv.getD [] ++
          [["No title found", sentinelBody, imageOf pageBare, "u", publishedOf pageBare,
            envBare.now]])⟩,
       stZero.count + 1,
       stZero.trace ++ [Ev.sinkWrite ["No title found", sentinelBody, imageOf pageBare, "u",
         publishedOf pageBare, envBare.now], Ev.recordSeen "u"]⟩ :=
  ⟨⟨rfl, rfl, rfl, rfl⟩, c6_degraded_record envBare stZero "u" pageBare rfl rfl rfl rfl⟩

/-- C7 as stated is false: `record` appends the identifier verbatim but
`load` strips each line, so an identifier with trailing whitespace is not
returned by the load that follows its own record — recording `"a "` yields
a store from which load returns exactly `{"a"}`. -/
theorem c7_counterexample :
    "a " ∉ get_current_articles (save_article_url fsEmpty "a ") ∧
    get_current_articles (save_article_url fsEmpty "a ") = ["a"] := by
  decide

/-- C7 (amended): the load operation returns exactly the set of
identifiers previously recorded — with each stored line stripped of
surrounding whitespace, so exactly the recorded set whenever the recorded
identifiers carry no surrounding whitespace and no newline or
carriage-return characters — and it returns the empty set, without
raising, when no history file exists. -/
theorem c7_amended_load (ids : List String) (c : Option (List (List String)))
    (hcl : ∀ u ∈ ids, cleanId u = true) :
    (∀ x, x ∈ get_current_articles (recordAll ⟨none, c⟩ ids) ↔ x ∈ ids) ∧
    get_current_articles ⟨none, c⟩ = [] := by
  constructor
  · intro x
    have h2 : (recordAll ⟨none, c⟩ ids).history = historyAfter none ids :=
      recordAll_history ids ⟨none, c⟩
    rw [mem_load_historyAfter ids none ⟨none, c⟩ (recordAll ⟨none, c⟩ ids) rfl h2 rfl hcl x]
    simp [get_current_articles]
  · rfl

theorem c7_amended_load_witness :
    (∀ u ∈ ["a"], cleanId u = true) ∧
    ((∀ x, x ∈ get_current_articles (recordAll ⟨none, none⟩ ["a"]) ↔ x ∈ ["a"]) ∧
     get_current_articles ⟨none, none⟩ = []) :=
  ⟨by decide, c7_amended_load ["a"] none (by decide)⟩

/-- C8: in every cycle the daily CSV file receives the field-header row
exactly when the file did not previously exist (one header event when the
file was absent, none otherwise — so at most one header per cycle), and
the file is opened in append mode, so after the cycle its contents are the
prior contents (the bare header for a fresh file) followed by newly
appended rows: prior contents are never overwritten. -/
theorem c8_daily_file_header (env : Env) (fs : FS) :
    ((scrape_prothom_alo env fs).trace.filter isHeaderEv).length = cond fs.csv.isNone 1 0 ∧
    ∃ rows, (scrape_prothom_alo env fs).fs.csv = some (fs.csv.getD [headerRow] ++ rows) := by
  cases hh : env.homepage with
  | none =>
    rw [scrape_eq_none env fs hh]
    constructor
    · show ((openDaily fs).2.filter isHeaderEv).length = _
      rw [openDaily_trace]
      cases fs.csv.isNone <;> simp [isHeaderEv]
    · refine ⟨[], ?_⟩
      show (openDaily fs).1.csv = _
      rw [openDaily_csv, List.append_nil]
  | some hrefs =>
    rw [scrape_eq_some env fs hrefs hh]
    constructor
    · rw [processAll_header_filter]
      show ((openDaily fs).2.filter isHeaderEv).length = _
      rw [openDaily_trace]
      cases fs.csv.isNone <;> simp [isHeaderEv]
    · refine ⟨_, processAll_csv env _ _ (fs.csv.getD [headerRow]) ?_⟩
      show (openDaily fs).1.csv = _
      exact openDaily_csv fs

/-- C10: the value every cycle returns equals the number of identifiers
appended to the history file during that cycle; the number of CSV data
rows written in the cycle equals that same count (one row per appended
identifier, written earlier in the same iteration); and the outer loop's
running total is the sum of the per-cycle return values. -/
theorem c10_count_consistency :
    (∀ env fs, (scrape_prothom_alo env fs).count =
        ((scrape_prothom_alo env fs).trace.filter isRecordEv).length) ∧
    (∀ env fs, ((scrape_prothom_alo env fs).trace.filter isSinkEv).length =
        ((scrape_prothom_alo env fs).trace.filter isRecordEv).length) ∧
    (∀ envs fs total, (runCycles envs fs total).2 = total + (cycleCounts envs fs).sum) := by
  refine ⟨?_, ?_, ?_⟩
  · intro env fs
    cases hh : env.homepage with
    | none =>
      rw [scrape_eq_none env fs hh]
      show (0 : Nat) = ((openDaily fs).2.filter isRecordEv).length
      rw [openDaily_no_record]
      rfl
    | some hrefs =>
      rw [scrape_eq_some env fs hrefs hh, processAll_count, processAll_record_count]
      show 0 + _ = ((openDaily fs).2.filter isRecordEv).length + _
      rw [openDaily_no_record]
      rfl
  · intro env fs
    cases hh : env.homepage with
    | none =>
      rw [scrape_eq_none env fs hh]
      show ((openDaily fs).2.filter isSinkEv).length =
        ((openDaily fs).2.filter isRecordEv).length
      rw [openDaily_no_record, openDaily_no_sink]
    | some hrefs =>
      rw [scrape_eq_some env fs hrefs hh, processAll_sink_count, processAll_record_count]
      show ((openDaily fs).2.filter isSinkEv).length + _ =
        ((openDaily fs).2.filter isRecordEv).length + _
      rw [openDaily_no_record, openDaily_no_sink]
  · intro envs
    induction envs with
    | nil => intro fs total; simp [runCycles, cycleCounts]
    | cons e es ih =>
      intro fs total
      simp only [runCycles, cycleCounts, List.sum_cons]
      rw [ih]
      omega

/-- C9: a homepage href is selected as a candidate identifier iff it
contains `/{category}/` for at least one of the eight fixed category names
and contains neither `/video/` nor `/gallery/`; a selected href not
starting with `http` is prefixed with the base URL, and no other
normalization is applied — the candidate is the href itself otherwise. -/
theorem c9_candidate_selection (hrefs : List String) (u : String) :
    u ∈ discoverLinks hrefs ↔
      ∃ h, h ∈ hrefs ∧
        (∃ cat, cat ∈ categories ∧ ("/" ++ cat ++ "/").data <:+: h.data) ∧
        ¬ ("/video/".data <:+: h.data) ∧ ¬ ("/gallery/".data <:+: h.data) ∧
        u = (if startsWith h "http" then h else base_url ++ h) := by
  simp only [discoverLinks, List.mem_flatten, List.mem_map, List.mem_filter, containsSub,
    Bool.and_eq_true, Bool.not_eq_true', decide_eq_true_eq, decide_eq_false_iff_not]
  constructor
  · rintro ⟨l, ⟨cat, hcat, rfl⟩, hu⟩
    rw [List.mem_map] at hu
    obtain ⟨h, hmem, rfl⟩ := hu
    rw [List.mem_filter] at hmem
    obtain ⟨hmem1, hbool⟩ := hmem
    rw [List.mem_filter] at hmem1
    obtain ⟨hh, hcatb⟩ := hmem1
    simp only [Bool.and_eq_true, Bool.not_eq_true', decide_eq_true_eq,
      decide_eq_false_iff_not] at hbool hcatb
    exact ⟨h, hh, ⟨cat, hcat, hcatb⟩, hbool.1, hbool.2, rfl⟩
  · rintro ⟨h, hh, ⟨cat, hcat, hinf⟩, hv, hg, rfl⟩
    refine ⟨_, ⟨cat, hcat, rfl⟩, ?_⟩
    rw [List.mem_map]
    refine ⟨h, ?_, rfl⟩
    rw [List.mem_filter]
    refine ⟨?_, ?_⟩
    · rw [List.mem_filter]
      exact ⟨hh, by simpa using hinf⟩
    · simp [hv, hg]
